import Mathlib

/-!
Shallow embedding of the query-evaluation core of the GoogleSheetDB class
(src/index.js): value coercion (_parseValue), the predicate evaluator
(_applyFilter), the sort engine (_applySorting), projection
(_applySelectFields), the post-fetch pipeline of select(), and the
SQL-to-command translator (_sqlToNosqlConverter).

Conventions of the embedding:
* Cell values are strings (the sheet backend always yields strings); a JS
  value that may also be a number or undefined is modelled by JSVal.
* JS numbers are modelled as exact rationals plus infinity and NaN markers
  (IEEE rounding is not modelled; no claim depends on rounding).
* Code that can raise a runtime TypeError is modelled in Except Unit.
* Text is processed on List Char; regular expressions of the source are
  modelled by hand-rolled matchers documented with the regex they model.
-/

deriving instance DecidableEq for Except

namespace SheetDB

/-- Whitespace test modelling the ASCII part of the JS regex class \s and of
String.prototype.trim. -/
def wsCharB (c : Char) : Bool :=
  c = ' ' || c = '\t' || c = '\n' || c = '\r' || c = '\x0b' || c = '\x0c'

/-- Word-character test modelling the JS regex class \w. -/
def wordCharB (c : Char) : Bool :=
  ('a' ≤ c && c ≤ 'z') || ('A' ≤ c && c ≤ 'Z') || ('0' ≤ c && c ≤ '9') || c = '_'

/-- Decimal-digit test modelling the JS regex class \d. -/
def digitB (c : Char) : Bool := '0' ≤ c && c ≤ '9'

/-- Lower-casing of a character list, modelling String.prototype.toLowerCase
on the ASCII range. -/
def toLowerL (l : List Char) : List Char := l.map Char.toLower

/-- Upper-casing of a character list, modelling String.prototype.toUpperCase
on the ASCII range. -/
def toUpperL (l : List Char) : List Char := l.map Char.toUpper

/-- Trim of leading and trailing whitespace, modelling String.prototype.trim. -/
def trimL (l : List Char) : List Char :=
  ((l.dropWhile wsCharB).reverse.dropWhile wsCharB).reverse

/-- Exact prefix test: startsWithSeq needle hay. -/
def startsWithSeq : List Char → List Char → Bool
  | [], _ => true
  | _ :: _, [] => false
  | a :: as, b :: bs => a = b && startsWithSeq as bs

/-- Case-insensitive prefix test (ASCII folding): ciStartsWith needle hay. -/
def ciStartsWith : List Char → List Char → Bool
  | [], _ => true
  | _ :: _, [] => false
  | a :: as, b :: bs => a.toLower = b.toLower && ciStartsWith as bs

/-- Substring test, modelling String.prototype.includes. -/
def containsSeq : List Char → List Char → Bool
  | [], needle => needle.isEmpty
  | c :: t, needle => startsWithSeq needle (c :: t) || containsSeq t needle

/-- Lexicographic comparison by code point, modelling the JS relational
operators on two strings (UTF-16 code-unit order; identical on the BMP). -/
def lexCmpL : List Char → List Char → Ordering
  | [], [] => .eq
  | [], _ :: _ => .lt
  | _ :: _, [] => .gt
  | a :: as, b :: bs =>
    if a.toNat < b.toNat then .lt
    else if b.toNat < a.toNat then .gt
    else lexCmpL as bs

/-- Split on a single separator character, modelling
String.prototype.split(sep) for a one-character separator. -/
def splitOnCharL (sep : Char) : List Char → List (List Char)
  | [] => [[]]
  | c :: t =>
    let r := splitOnCharL sep t
    if c = sep then [] :: r
    else
      match r with
      | h :: t2 => (c :: h) :: t2
      | [] => [[c]]

/-- Split on maximal whitespace runs, modelling split(/\s+/). -/
def splitWsL : List Char → List (List Char)
  | [] => [[]]
  | c :: t =>
    let r := splitWsL t
    if wsCharB c then
      match t with
      | [] => [] :: r
      | c2 :: _ => if wsCharB c2 then r else [] :: r
    else
      match r with
      | h :: t2 => (c :: h) :: t2
      | [] => [[c]]

/-- Value of a run of decimal digits. -/
def digitsToNat (l : List Char) : Nat :=
  l.foldl (fun n c => n * 10 + (c.toNat - 48)) 0

/-- Rational power of ten with an integer exponent. -/
def qPow10 (e : Int) : ℚ :=
  if 0 ≤ e then ((10 : ℚ)) ^ e.toNat else ((1 : ℚ)) / ((10 : ℚ)) ^ (-e).toNat

/-- Full-string parse of an unsigned JS decimal literal
(digits [. digits] [exponent] | . digits [exponent]), as accepted by both
Number() and parseFloat() when it spans the whole string. -/
def parseDecQ (l : List Char) : Option ℚ :=
  let intPart := l.takeWhile digitB
  let rest := l.dropWhile digitB
  let fracAndRest : List Char × List Char :=
    match rest with
    | '.' :: t => (t.takeWhile digitB, t.dropWhile digitB)
    | _ => ([], rest)
  let fracPart := fracAndRest.1
  let rest2 := if rest = [] then [] else (match rest with
    | '.' :: _ => fracAndRest.2
    | _ => rest)
  if intPart = [] && fracPart = [] then none
  else
    let mant : ℚ := ((digitsToNat intPart : ℚ)) + ((digitsToNat fracPart : ℚ)) / qPow10 (fracPart.length : Int)
    match rest2 with
    | [] => some mant
    | e :: t =>
      if e = 'e' || e = 'E' then
        let signAndDigits : Bool × List Char :=
          match t with
          | '-' :: u => (true, u)
          | '+' :: u => (false, u)
          | _ => (false, t)
        let ds := signAndDigits.2
        if ds ≠ [] && ds.all digitB then
          let ex : Int := if signAndDigits.1 then -((digitsToNat ds : Int)) else ((digitsToNat ds : Int))
          some (mant * qPow10 ex)
        else none
      else none

/-- Hexadecimal-digit test. -/
def hexDigitB (c : Char) : Bool := digitB c || ('a' ≤ c.toLower && c.toLower ≤ 'f')

/-- Full-string test for a JS non-decimal integer literal (0x…, 0b…, 0o…),
which Number() accepts but which may not carry a sign. -/
def isRadixLit (l : List Char) : Bool :=
  match l with
  | '0' :: x :: t =>
    ((x = 'x' || x = 'X') && !t.isEmpty && t.all hexDigitB)
      || ((x = 'b' || x = 'B') && !t.isEmpty && t.all (fun c => c = '0' || c = '1'))
      || ((x = 'o' || x = 'O') && !t.isEmpty && t.all (fun c => '0' ≤ c && c ≤ '7'))
  | _ => false

/-- Value of one hexadecimal digit. -/
def hexVal (c : Char) : Nat := if digitB c then c.toNat - 48 else c.toLower.toNat - 87

/-- Value of a JS non-decimal integer literal. -/
def radixValQ (l : List Char) : ℚ :=
  match l with
  | '0' :: x :: t =>
    let base : Nat := if x = 'x' || x = 'X' then 16 else if x = 'b' || x = 'B' then 2 else 8
    ((t.foldl (fun n c => n * base + hexVal c) 0 : Nat) : ℚ)
  | _ => 0

/-- Comparable value produced by _parseValue: a finite number, an infinity,
the NaN sentinel, or a lower-cased string. -/
inductive JSComparable where
  | num (q : ℚ)
  | inf (pos : Bool)
  | nan
  | str (s : List Char)
deriving DecidableEq, Repr

/-- JS value as it reaches _parseValue: undefined, a string, or a number. -/
inductive JSVal where
  | undefined
  | vstr (s : String)
  | vnum (q : ℚ)
deriving DecidableEq, Repr

/-- Result of the JS ToNumber conversion Number(s): num 0 on an empty or
all-whitespace string, a radix literal's value, a signed decimal value or
Infinity, and NaN otherwise. -/
def jsToNumberFull (s : List Char) : JSComparable :=
  let t := trimL s
  if t.isEmpty then .num 0
  else if isRadixLit t then .num (radixValQ t)
  else
    let signAndBody : Bool × List Char :=
      match t with
      | '-' :: r => (true, r)
      | '+' :: r => (false, r)
      | _ => (false, t)
    if signAndBody.2 = ("Infinity").data then .inf (!signAndBody.1)
    else
      match parseDecQ signAndBody.2 with
      | some q => .num (if signAndBody.1 then -q else q)
      | none => .nan

/-- Result of parseFloat(s) restricted to strings on which Number(s) is not
NaN (the only situation in which the source calls parseFloat): NaN on an
empty or all-whitespace string, 0 on a radix literal (parseFloat stops at
the radix letter), and otherwise the signed decimal value or Infinity. -/
def jsParseFloatNumeric (s : List Char) : JSComparable :=
  let t := trimL s
  if t.isEmpty then .nan
  else if isRadixLit t then .num 0
  else
    let signAndBody : Bool × List Char :=
      match t with
      | '-' :: r => (true, r)
      | '+' :: r => (false, r)
      | _ => (false, t)
    if signAndBody.2 = ("Infinity").data then .inf (!signAndBody.1)
    else
      match parseDecQ signAndBody.2 with
      | some q => .num (if signAndBody.1 then -q else q)
      | none => .nan

/-- Coercion of a raw string cell on the non-date path of _parseValue:
if (!isNaN(value)) return parseFloat(value); return value.toString().toLowerCase().
The string branch is only reached when Number(s) is NaN, so the resulting
string never coerces back to a number in a mixed comparison. -/
def coerceNonDate (s : String) : JSComparable :=
  match jsToNumberFull s.data with
  | .nan => .str (toLowerL s.data)
  | _ => jsParseFloatNumeric s.data

/-- Leap-year test of the proleptic Gregorian calendar. -/
def isLeap (y : Int) : Bool := (y % 4 = 0 && y % 100 ≠ 0) || y % 400 = 0

/-- Number of days of a month. -/
def daysInMonth (y : Int) (m : Nat) : Nat :=
  if m = 2 then (if isLeap y then 29 else 28)
  else if m = 4 || m = 6 || m = 9 || m = 11 then 30
  else 31

/-- Days from 1970-01-01 of a proleptic Gregorian civil date
(Howard Hinnant's days_from_civil algorithm). -/
def daysFromCivil (y : Int) (m d : Nat) : Int :=
  let y2 : Int := if m ≤ 2 then y - 1 else y
  let era : Int := (if 0 ≤ y2 then y2 else y2 - 399) / 400
  let yoe : Int := y2 - era * 400
  let mp : Nat := (m + 9) % 12
  let doy : Int := ((153 * mp + 2) / 5 + d - 1 : Nat)
  let doe : Int := yoe * 365 + yoe / 4 - yoe / 100 + doy
  era * 146097 + doe - 719468

/-- Parse of the ISO-8601 date-only forms YYYY, YYYY-MM and YYYY-MM-DD into
epoch milliseconds, modelling new Date(string).getTime() on that subset of
the Date constructor's grammar; any other text is modelled as unparseable
(NaN), matching the engine's Invalid Date for malformed input. -/
def jsDateParse (s : String) : Option Int :=
  let l := s.data
  let y4 := l.take 4
  if y4.length = 4 && y4.all digitB then
    let y : Int := ((digitsToNat y4 : Nat) : Int)
    match l.drop 4 with
    | [] => some (daysFromCivil y 1 1 * 86400000)
    | '-' :: m1 :: m2 :: rest =>
      if digitB m1 && digitB m2 then
        let mm := digitsToNat [m1, m2]
        if 1 ≤ mm && mm ≤ 12 then
          match rest with
          | [] => some (daysFromCivil y mm 1 * 86400000)
          | '-' :: d1 :: d2 :: [] =>
            if digitB d1 && digitB d2 then
              let dd := digitsToNat [d1, d2]
              if 1 ≤ dd && dd ≤ daysInMonth y mm then
                some (daysFromCivil y mm dd * 86400000)
              else none
            else none
          | _ => none
        else none
      else none
    | _ => none
  else none

/-- Embedding of _parseValue (src/index.js lines 47-51):
if (isDate) return new Date(value).getTime();
if (!isNaN(value)) return parseFloat(value);
return value.toString().toLowerCase();
The error case models the TypeError raised by undefined.toString(). -/
def _parseValue : JSVal → Bool → Except Unit JSComparable
  | v, true =>
    match v with
    | .undefined => .ok .nan
    | .vnum q => .ok (.num q)
    | .vstr s =>
      .ok (match jsDateParse s with
        | some ms => .num ((ms : ℚ))
        | none => .nan)
  | .undefined, false => .error ()
  | .vnum q, false => .ok (.num q)
  | .vstr s, false => .ok (coerceNonDate s)

/-- Three-way comparison of rationals. -/
def qCmpOrd (a b : ℚ) : Ordering :=
  if a < b then .lt else if a = b then .eq else .gt

/-- Partial comparison underlying the JS operators on two coerced values:
none when NaN is involved or when a non-numeric string meets a number or
infinity (its ToNumber image is NaN), making every relational operator
false and loose equality false. -/
def jsCmpDef : JSComparable → JSComparable → Option Ordering
  | .num a, .num b => some (qCmpOrd a b)
  | .str a, .str b => some (lexCmpL a b)
  | .inf a, .inf b => if a = b then some .eq else if b then some .lt else some .gt
  | .inf a, .num _ => some (if a then .gt else .lt)
  | .num _, .inf b => some (if b then .lt else .gt)
  | _, _ => none

/-- JS a < b on coerced values. -/
def jsLtB (a b : JSComparable) : Bool := jsCmpDef a b = some Ordering.lt

/-- JS a > b on coerced values. -/
def jsGtB (a b : JSComparable) : Bool := jsCmpDef a b = some Ordering.gt

/-- JS a <= b on coerced values (false whenever NaN is involved). -/
def jsLeB (a b : JSComparable) : Bool :=
  match jsCmpDef a b with
  | some Ordering.lt => true
  | some Ordering.eq => true
  | _ => false

/-- JS a >= b on coerced values (false whenever NaN is involved). -/
def jsGeB (a b : JSComparable) : Bool :=
  match jsCmpDef a b with
  | some Ordering.gt => true
  | some Ordering.eq => true
  | _ => false

/-- JS loose equality a == b on coerced values. -/
def jsEqB (a b : JSComparable) : Bool := jsCmpDef a b = some Ordering.eq

/-- JS loose inequality a != b on coerced values (true for NaN pairs). -/
def jsNeB (a b : JSComparable) : Bool := !(jsEqB a b)

/-- Row as materialized by _getSheetData: header-keyed string cells plus the
positional identifier _row (the 1-based sheet row, header in row 1). -/
structure Row where
  cells : List (String × String)
  _row : Nat
deriving DecidableEq, Repr

/-- Condition of a Filter entry: a bare literal (loose equality) or an
operator/value pair, per the runtime type inspection of _applyFilter. -/
inductive Cond where
  | lit (v : JSVal)
  | cmp (op : String) (v : JSVal)
deriving DecidableEq, Repr

/-- Filter: a JS object mapping column names to conditions, modelled as an
insertion-ordered association list with unique keys. -/
abbrev Filter := List (String × Cond)

/-- Property lookup on a JS object modelled as an association list. -/
def rowGetCell (cells : List (String × String)) (k : String) : Option String :=
  (cells.find? (fun p => p.1 == k)).map (fun p => p.2)

/-- Embedding of row[key] || '' : a missing property (and an empty cell)
yields the empty string. -/
def jsOrEmpty (o : Option String) : String :=
  match o with
  | some s => s
  | none => ""

/-- Conversion of a property lookup to the JSVal reaching _parseValue in the
sort comparator, where absence is undefined (no || '' guard there). -/
def jsOfCellOpt (o : Option String) : JSVal :=
  match o with
  | some s => .vstr s
  | none => .undefined

/-- Date hint of a column, from _applyFilter and _applySorting:
key.toLowerCase().includes('date'). -/
def dateHint (k : String) : Bool := containsSeq (toLowerL k.data) (("date").data)

/-- Decimal rendering of a rational whose denominator divides a power of
ten, modelling JS number-to-string conversion on the common finite-decimal
range (exponent notation for extreme magnitudes is not modelled). -/
def ratDecimalString (q : ℚ) : String :=
  if q.den = 1 then toString q.num
  else
    match (List.range 64).find? (fun k : Nat => (q * qPow10 (Int.ofNat k)).den = 1) with
    | some k =>
      let scaled := (q * qPow10 (Int.ofNat k)).num
      let ds := toString scaled.natAbs
      let padded := if ds.length ≤ k then String.mk (List.replicate ((k : Nat) + 1 - ds.length) '0') ++ ds else ds
      let cut : Nat := padded.length - (k : Nat)
      (if q < 0 then "-" else "") ++ String.mk (padded.data.take cut) ++ "." ++ String.mk (padded.data.drop cut)
    | none => toString q.num ++ "/" ++ toString q.den

/-- Embedding of the JS String(value) conversion for condition values. -/
def jsStringOf : JSVal → String
  | .vstr s => s
  | .vnum q => ratDecimalString q
  | .undefined => "undefined"

/-- Embedding of rowVal == condition for a bare-literal condition: string
against string is exact equality; string against number goes through
ToNumber on the string; anything loosely equals undefined only if it is
null or undefined, hence false for a string cell. -/
def jsLooseEqStrVal (rowVal : String) : JSVal → Bool
  | .vstr t => rowVal == t
  | .vnum q =>
    match jsToNumberFull rowVal.data with
    | .num x => x == q
    | _ => false
  | .undefined => false

/-- Evaluation of one (key, condition) entry of a Filter against a row,
embedding the body of the every-callback of _applyFilter
(src/index.js lines 55-76). Both operands are coerced before the operator
switch, so a condition whose value is undefined errors on a non-date column
even for the contains and unknown-operator branches. -/
def entryMatches (r : Row) (k : String) (c : Cond) : Except Unit Bool :=
  let rowVal : String := jsOrEmpty (rowGetCell r.cells k)
  let isDate := dateHint k
  match c with
  | .lit v => .ok (jsLooseEqStrVal rowVal v)
  | .cmp op v =>
    match _parseValue (.vstr rowVal) isDate with
    | .error e => .error e
    | .ok a =>
      match _parseValue v isDate with
      | .error e => .error e
      | .ok b =>
        .ok (if op = ">" then jsGtB a b
          else if op = "<" then jsLtB a b
          else if op = ">=" then jsGeB a b
          else if op = "<=" then jsLeB a b
          else if op = "!=" then jsNeB a b
          else if op = "=" then jsEqB a b
          else if op = "contains" then
            containsSeq (toLowerL rowVal.data) (toLowerL (jsStringOf v).data)
          else false)

/-- Conjunction over the Filter entries, embedding
Object.entries(where).every(...) with its left-to-right short-circuit. -/
def rowMatches (w : Filter) (r : Row) : Except Unit Bool :=
  match w with
  | [] => .ok true
  | (k, c) :: rest =>
    match entryMatches r k c with
    | .error e => .error e
    | .ok b => if b then rowMatches rest r else .ok false

/-- Test that an Except-valued predicate returned ok true. -/
def isOkTrue (e : Except Unit Bool) : Bool :=
  match e with
  | .ok true => true
  | _ => false

/-- Embedding of _applyFilter (src/index.js lines 53-79): data.filter over
the row predicate, evaluated front to back, aborting on the first raised
error. -/
def _applyFilter (data : List Row) (w : Filter) : Except Unit (List Row) :=
  match data with
  | [] => .ok []
  | r :: rs =>
    match rowMatches w r with
    | .error e => .error e
    | .ok b =>
      match _applyFilter rs w with
      | .error e => .error e
      | .ok rest => .ok (if b then r :: rest else rest)

/-- Order key of _applySorting: a column name and a direction string
(anything other than 'desc' sorts ascending). -/
structure OrderKey where
  column : String
  direction : String
deriving DecidableEq, Repr

/-- Embedding of the comparator closure of _applySorting
(src/index.js lines 82-91): walk the keys, coerce both cells with the
column's date hint, return the direction-adjusted sign on the first strict
inequality, and 0 when every key compares neither-less-nor-greater. -/
def cmpRows (orderBy : List OrderKey) (a b : Row) : Except Unit Int :=
  match orderBy with
  | [] => .ok 0
  | key :: rest =>
    let isDate := dateHint key.column
    match _parseValue (jsOfCellOpt (rowGetCell a.cells key.column)) isDate with
    | .error e => .error e
    | .ok valA =>
      match _parseValue (jsOfCellOpt (rowGetCell b.cells key.column)) isDate with
      | .error e => .error e
      | .ok valB =>
        if jsLtB valA valB then .ok (if key.direction = "desc" then 1 else -1)
        else if jsGtB valA valB then .ok (if key.direction = "desc" then -1 else 1)
        else cmpRows rest a b

/-- Stable insertion of an element into a sorted list under an Except-valued
comparator: the element passes exactly the elements it compares strictly
greater than, so equal elements keep their input order. -/
def insertE {α : Type} (cmp : α → α → Except Unit Int) (x : α) : List α → Except Unit (List α)
  | [] => .ok [x]
  | y :: ys =>
    match cmp x y with
    | .error e => .error e
    | .ok c =>
      if 0 < c then
        match insertE cmp x ys with
        | .error e => .error e
        | .ok rest => .ok (y :: rest)
      else .ok (x :: y :: ys)

/-- Stable insertion sort under an Except-valued comparator, modelling
Array.prototype.sort (stable per ES2019) with a comparator that may raise. -/
def sortE {α : Type} (cmp : α → α → Except Unit Int) : List α → Except Unit (List α)
  | [] => .ok []
  | x :: xs =>
    match sortE cmp xs with
    | .error e => .error e
    | .ok s => insertE cmp x s

/-- Embedding of _applySorting (src/index.js lines 81-92). -/
def _applySorting (data : List Row) (orderBy : List OrderKey) : Except Unit (List Row) :=
  sortE (cmpRows orderBy) data

/-- Insertion into a JS object modelled as an association list: an existing
key is overwritten in place, a new key is appended. -/
def objInsertG {α : Type} (m : List (String × α)) (k : String) (v : α) : List (String × α) :=
  if m.any (fun p => p.1 == k) then m.map (fun p => if p.1 == k then (k, v) else p)
  else m ++ [(k, v)]

/-- Embedding of _applySelectFields (src/index.js lines 94-100): each row is
narrowed to the requested fields; a requested field absent from the row
appears with an undefined value. The positional identifier _row is a plain
property of the JS row object, not separately modelled here, so projecting
the literal field "_row" is outside this embedding. -/
def _applySelectFields (data : List Row) (fields : List String) : List (List (String × Option String)) :=
  data.map (fun row => fields.foldl (fun obj f => objInsertG obj f (rowGetCell row.cells f)) [])

/-- Options of select, per the translated SELECT command and the option
tests of select(): absent fields are none. -/
structure SelectOptions where
  orderBy : Option (List OrderKey)
  limit : Option Nat
  offset : Option Nat
  selectFields : Option (List String)
deriving DecidableEq, Repr

/-- Result of the select pipeline: raw rows, or projected objects when
selectFields was given. -/
inductive SelectOut where
  | raw (rows : List Row)
  | proj (objs : List (List (String × Option String)))
deriving DecidableEq, Repr

/-- Embedding of the post-fetch part of select() (src/index.js lines
159-169): filter, then sort when options.orderBy is present (an empty array
is truthy in JS and sorts as a no-op), then slice(offset) when offset is
truthy (0 is falsy and skipped), then slice(0, limit) when limit is truthy,
then projection when selectFields is present. -/
def selectPipeline (rows : List Row) (w : Filter) (o : SelectOptions) : Except Unit SelectOut :=
  match _applyFilter rows w with
  | .error e => .error e
  | .ok d =>
    let step1 : Except Unit (List Row) :=
      match o.orderBy with
      | some ob => _applySorting d ob
      | none => .ok d
    match step1 with
    | .error e => .error e
    | .ok d1 =>
      let d2 := match o.offset with
        | some k => if k ≠ 0 then d1.drop k else d1
        | none => d1
      let d3 := match o.limit with
        | some n => if n ≠ 0 then d2.take n else d2
        | none => d2
      match o.selectFields with
      | some fs => .ok (.proj (_applySelectFields d3 fs))
      | none => .ok (.raw d3)

/-- Removal of one leading and one trailing quote character, modelling
value.replace(/^['"]|['"]$/g, ''). -/
def stripQuotesL (l : List Char) : List Char :=
  let quoteB : Char → Bool := fun c => c = '\x27' || c = '"'
  let l1 := match l with
    | c :: t => if quoteB c then t else l
    | [] => []
  match l1.reverse with
  | c :: t => if quoteB c then t.reverse else l1
  | [] => l1

/-- Split on the separator /\s+AND\s+/i (maximal surrounding whitespace,
case-insensitive AND), scanning left to right as String.prototype.split
does; fuel bounds the recursion and is supplied as the text length. -/
def splitAndGo (fuel : Nat) (acc : List Char) (l : List Char) : List (List Char) :=
  match fuel with
  | 0 => [acc.reverse ++ l]
  | fuel' + 1 =>
    match l with
    | [] => [acc.reverse]
    | c :: t =>
      if wsCharB c then
        let after := (c :: t).dropWhile wsCharB
        if ciStartsWith (("AND").data) after then
          let after2 := after.drop 3
          match after2 with
          | c2 :: _ =>
            if wsCharB c2 then acc.reverse :: splitAndGo fuel' [] (after2.dropWhile wsCharB)
            else splitAndGo fuel' (c :: acc) t
          | [] => splitAndGo fuel' (c :: acc) t
        else splitAndGo fuel' (c :: acc) t
      else splitAndGo fuel' (c :: acc) t

/-- Split of a WHERE conditions string on /\s+AND\s+/i. -/
def splitAndL (l : List Char) : List (List Char) := splitAndGo (l.length + 1) [] l

/-- Fold of the forEach over split conditions shared by the SELECT, UPDATE
and DELETE branches (src/index.js lines 864-871, 917-924, 935-941): a
condition splitting into exactly two parts on '=' inserts a trimmed key and
a trimmed, quote-stripped value; any other condition is skipped. -/
def buildWhereFrom (w : Filter) (conds : List (List Char)) : Filter :=
  match conds with
  | [] => w
  | c :: rest =>
    match splitOnCharL '=' c with
    | [k, v] =>
      buildWhereFrom (objInsertG w (String.mk (trimL k)) (Cond.lit (JSVal.vstr (String.mk (stripQuotesL (trimL v)))))) rest
    | _ => buildWhereFrom w rest

/-- Same fold for the SET pairs of UPDATE (src/index.js lines 907-914),
producing plain string values. -/
def buildPairsFrom (m : List (String × String)) (pairs : List (List Char)) : List (String × String) :=
  match pairs with
  | [] => m
  | c :: rest =>
    match splitOnCharL '=' c with
    | [k, v] =>
      buildPairsFrom (objInsertG m (String.mk (trimL k)) (String.mk (stripQuotesL (trimL v)))) rest
    | _ => buildPairsFrom m rest

/-- Generic left-to-right scan for the first position at which a match
attempt succeeds, modelling the search phase of RegExp.prototype.exec. -/
def scanOpt {α : Type} (tryHere : List Char → Option α) : List Char → Option α
  | [] => none
  | c :: rest =>
    match tryHere (c :: rest) with
    | some v => some v
    | none => scanOpt tryHere rest

/-- Capture extension of a lazy (.+?) group bounded by alternated terminator
keywords or end of string: stop before the first position at which some
terminator matches case-insensitively. -/
def takeUntilTerm (terms : List (List Char)) : List Char → List Char
  | [] => []
  | c :: rest =>
    if terms.any (fun t => ciStartsWith t (c :: rest)) then []
    else c :: takeUntilTerm terms rest

/-- Match attempt of /KW\s+(.+?)(T1|…|Tn|$)/i anchored at the head of l,
returning the raw group-1 text: greedy whitespace after the keyword, then a
lazy capture of at least one character up to the first terminator or end of
string; when only whitespace follows the keyword, the greedy run backtracks
one character so the capture becomes a single whitespace character. -/
def clauseTryHere (kw : List Char) (terms : List (List Char)) (l : List Char) : Option (List Char) :=
  if ciStartsWith kw l then
    let after := l.drop kw.length
    let run := (after.takeWhile wsCharB).length
    if run = 0 then none
    else
      match after.drop run with
      | c :: tail => some (c :: takeUntilTerm terms tail)
      | [] => if 2 ≤ run then some (after.drop (run - 1)) else none
  else none

/-- First-match capture of /KW\s+(.+?)(T1|…|Tn|$)/i anywhere in the text. -/
def clauseCapture (kw : List Char) (terms : List (List Char)) : List Char → Option (List Char) :=
  scanOpt (clauseTryHere kw terms)

/-- Match attempt of /KW\s+(\d+)/i anchored at the head of l. -/
def numTryHere (kw : List Char) (l : List Char) : Option Nat :=
  if ciStartsWith kw l then
    let after := l.drop kw.length
    let run := (after.takeWhile wsCharB).length
    if run = 0 then none
    else
      let ds := (after.drop run).takeWhile digitB
      if ds.isEmpty then none else some (digitsToNat ds)
  else none

/-- First-match capture of /KW\s+(\d+)/i anywhere in the text, with the
captured digits read as a decimal integer (parseInt(…, 10)). -/
def numCapture (kw : List Char) : List Char → Option Nat :=
  scanOpt (numTryHere kw)

/-- Test that l begins with FROM followed by whitespace and a word
character, the tail required after the capture of the SELECT regex. -/
def fromKwAt (l : List Char) : Bool :=
  if ciStartsWith (("FROM").data) l then
    let r2 := l.drop 4
    let run2 := (r2.takeWhile wsCharB).length
    if run2 = 0 then false
    else
      match r2.drop run2 with
      | c :: _ => wordCharB c
      | [] => false
  else false

/-- Test of the tail \s+FROM\s+\w at the head of l. -/
def fromPatternAt (l : List Char) : Bool :=
  match l with
  | c :: _ =>
    wsCharB c && fromKwAt (l.drop ((l.takeWhile wsCharB).length))
  | [] => false

/-- Scan for the first capture-end position whose suffix matches
\s+FROM\s+\w, returning the capture text before it. -/
def takeUntilFrom : List Char → Option (List Char)
  | [] => none
  | c :: rest =>
    if fromPatternAt (c :: rest) then some []
    else
      match takeUntilFrom rest with
      | some t => some (c :: t)
      | none => none

/-- Match attempt of /SELECT\s+(.*?)\s+FROM\s+\w+/i anchored at the head of
l, returning the group-1 text already trimmed (the caller trims it anyway):
greedy whitespace then a lazy, possibly empty capture up to the first
suffix matching \s+FROM\s+\w; when FROM sits right after the whitespace
run, the run backtracks so the capture is empty (requires a run of at least
two characters). -/
def selectTryHere (l : List Char) : Option (List Char) :=
  if ciStartsWith (("SELECT").data) l then
    let after := l.drop 6
    let run := (after.takeWhile wsCharB).length
    if run = 0 then none
    else
      let capStart := after.drop run
      match takeUntilFrom capStart with
      | some pre => some (trimL pre)
      | none =>
        if 2 ≤ run && fromKwAt capStart then some [] else none
  else none

/-- First-match trimmed capture of /SELECT\s+(.*?)\s+FROM\s+\w+/i. -/
def selectFieldsCapture : List Char → Option (List Char) :=
  scanOpt selectTryHere

/-- Match attempt of the tail \s+WHERE\s+(.+) anchored at the head of l,
returning the final capture: whitespace, WHERE, whitespace, then at least
one character (with the greedy run giving back its last character when the
string ends in whitespace). -/
def wsWhereTail (l : List Char) : Option (List Char) :=
  let run := (l.takeWhile wsCharB).length
  if run = 0 then none
  else
    let r1 := l.drop run
    if ciStartsWith (("WHERE").data) r1 then
      let r2 := r1.drop 5
      let run2 := (r2.takeWhile wsCharB).length
      if run2 = 0 then none
      else
        match r2.drop run2 with
        | c :: t => some (c :: t)
        | [] => if 2 ≤ run2 then some (r2.drop (run2 - 1)) else none
    else none

/-- Lazy split of the text after SET into the group-1 capture and the
group-2 capture of …SET\s+(.+?)\s+WHERE\s+(.+): scan for the earliest
suffix matching \s+WHERE\s+(.+). -/
def splitAtWsWhere : List Char → Option (List Char × List Char)
  | [] => none
  | c :: rest =>
    match wsWhereTail (c :: rest) with
    | some wp => some ([], wp)
    | none =>
      match splitAtWsWhere rest with
      | some pr => some (c :: pr.1, pr.2)
      | none => none

/-- Match attempt of /UPDATE\s+\w+\s+SET\s+(.+?)\s+WHERE\s+(.+)/i anchored
at the head of l, returning (group 1, group 2). When only whitespace
separates SET from WHERE, the greedy run after SET backtracks so group 1
becomes a single whitespace character (needs a run of at least three). -/
def updateTryHere (l : List Char) : Option (List Char × List Char) :=
  if ciStartsWith (("UPDATE").data) l then
    let a1 := l.drop 6
    let r1 := (a1.takeWhile wsCharB).length
    if r1 = 0 then none
    else
      let a2 := a1.drop r1
      let r2 := (a2.takeWhile wordCharB).length
      if r2 = 0 then none
      else
        let a3 := a2.drop r2
        let r3 := (a3.takeWhile wsCharB).length
        if r3 = 0 then none
        else
          let a4 := a3.drop r3
          if ciStartsWith (("SET").data) a4 then
            let a5 := a4.drop 3
            let r5 := (a5.takeWhile wsCharB).length
            if r5 = 0 then none
            else
              match a5.drop r5 with
              | c :: tail =>
                (match splitAtWsWhere tail with
                 | some pr => some (c :: pr.1, pr.2)
                 | none =>
                   if 3 ≤ r5 then
                     match wsWhereTail (a5.drop (r5 - 1)) with
                     | some wp => some ((a5.drop (r5 - 2)).take 1, wp)
                     | none => none
                   else none)
              | [] => none
          else none
  else none

/-- First match of the UPDATE statement regex anywhere in the text. -/
def updateCapture : List Char → Option (List Char × List Char) :=
  scanOpt updateTryHere

/-- Match attempt of /DELETE\s+FROM\s+\w+\s+WHERE\s+(.+)/i anchored at the
head of l. -/
def deleteTryHere (l : List Char) : Option (List Char) :=
  if ciStartsWith (("DELETE").data) l then
    let a1 := l.drop 6
    let r1 := (a1.takeWhile wsCharB).length
    if r1 = 0 then none
    else
      let a2 := a1.drop r1
      if ciStartsWith (("FROM").data) a2 then
        let a3 := a2.drop 4
        let r2 := (a3.takeWhile wsCharB).length
        if r2 = 0 then none
        else
          let a4 := a3.drop r2
          let r3 := (a4.takeWhile wordCharB).length
          if r3 = 0 then none
          else wsWhereTail (a4.drop r3)
      else none
  else none

/-- First match of the DELETE statement regex anywhere in the text. -/
def deleteCapture : List Char → Option (List Char) :=
  scanOpt deleteTryHere

/-- Match attempt of the parenthesized group \s*\(([^)]+)\) anchored at the
head of l, returning (capture, remainder after the closing parenthesis). -/
def parenGroupAt (l : List Char) : Option (List Char × List Char) :=
  let a := l.dropWhile wsCharB
  match a with
  | '(' :: t =>
    let inner := t.takeWhile (fun c => c ≠ ')')
    if inner.isEmpty then none
    else
      match t.dropWhile (fun c => c ≠ ')') with
      | ')' :: rest => some (inner, rest)
      | _ => none
  | _ => none

/-- Match attempt of /CREATE\s+TABLE\s+\w+\s*\(([^)]+)\)/i anchored at the
head of l. -/
def createTryHere (l : List Char) : Option (List Char) :=
  if ciStartsWith (("CREATE").data) l then
    let a1 := l.drop 6
    let r1 := (a1.takeWhile wsCharB).length
    if r1 = 0 then none
    else
      let a2 := a1.drop r1
      if ciStartsWith (("TABLE").data) a2 then
        let a3 := a2.drop 5
        let r2 := (a3.takeWhile wsCharB).length
        if r2 = 0 then none
        else
          let a4 := a3.drop r2
          let r3 := (a4.takeWhile wordCharB).length
          if r3 = 0 then none
          else
            match parenGroupAt (a4.drop r3) with
            | some pr => some pr.1
            | none => none
      else none
  else none

/-- First match of the CREATE TABLE regex anywhere in the text. -/
def createCapture : List Char → Option (List Char) :=
  scanOpt createTryHere

/-- Match attempt of /INSERT\s+INTO\s+\w+\s*\(([^)]+)\)\s+VALUES\s*\(([^)]+)\)/i
anchored at the head of l, returning (columns text, values text). -/
def insertTryHere (l : List Char) : Option (List Char × List Char) :=
  if ciStartsWith (("INSERT").data) l then
    let a1 := l.drop 6
    let r1 := (a1.takeWhile wsCharB).length
    if r1 = 0 then none
    else
      let a2 := a1.drop r1
      if ciStartsWith (("INTO").data) a2 then
        let a3 := a2.drop 4
        let r2 := (a3.takeWhile wsCharB).length
        if r2 = 0 then none
        else
          let a4 := a3.drop r2
          let r3 := (a4.takeWhile wordCharB).length
          if r3 = 0 then none
          else
            match parenGroupAt (a4.drop r3) with
            | some pr =>
              let afterCols := pr.2
              let r4 := (afterCols.takeWhile wsCharB).length
              if r4 = 0 then none
              else
                let a5 := afterCols.drop r4
                if ciStartsWith (("VALUES").data) a5 then
                  match parenGroupAt (a5.drop 6) with
                  | some pr2 => some (pr.1, pr2.1)
                  | none => none
                else none
            | none => none
      else none
  else none

/-- First match of the INSERT INTO regex anywhere in the text. -/
def insertCapture : List Char → Option (List Char × List Char) :=
  scanOpt insertTryHere

/-- Structured command produced by the translator. -/
inductive Command where
  | createTable (columns : List String)
  | dropTable
  | truncateTable
  | insertOne (obj : List (String × Option String))
  | select (w : Filter) (options : SelectOptions)
  | update (w : Filter) (newData : List (String × String))
  | delete (w : Filter)
  | getTables
  | showTableDetail
deriving DecidableEq, Repr

/-- Zip of INSERT columns onto values by position, embedding
columns.forEach((col, index) => obj[col] = values[index]); a missing value
is assigned as undefined. -/
def buildInsertObj (columns : List (List Char)) (values : List (List Char)) : List (String × Option String) :=
  (columns.enum.foldl
    (fun obj p => objInsertG obj (String.mk p.2) ((values.get? p.1).map String.mk)) [])

/-- Parse of the ORDER BY clause text (src/index.js lines 877-882): split on
commas, then each entry on whitespace; parts[1] lower-cased is the
direction when present and non-empty, else 'asc'. -/
def parseOrders (orderStr : List Char) : List OrderKey :=
  (splitOnCharL ',' orderStr).map (fun o =>
    let parts := splitWsL (trimL o)
    let col := String.mk (parts.headD [])
    let dir :=
      match parts with
      | _ :: d :: _ => if d.isEmpty then "asc" else String.mk (toLowerL d)
      | _ => "asc"
    OrderKey.mk col dir)

/-- Embedding of _sqlToNosqlConverter (src/index.js lines 812-957): trim the
query, dispatch on the upper-cased leading keyword, and translate each
recognized statement with the hand-modelled regexes above. Errors carry the
message thrown by the source. -/
def _sqlToNosqlConverter (sqlQuery : String) : Except String Command :=
  let query := trimL sqlQuery.data
  let upperQuery := toUpperL query
  if startsWithSeq (("CREATE TABLE").data) upperQuery then
    match createCapture query with
    | none => .error "Invalid CREATE TABLE syntax"
    | some cols =>
      .ok (.createTable ((splitOnCharL ',' cols).map (fun c => String.mk (trimL c))))
  else if startsWithSeq (("DROP TABLE").data) upperQuery then .ok .dropTable
  else if startsWithSeq (("TRUNCATE TABLE").data) upperQuery then .ok .truncateTable
  else if startsWithSeq (("INSERT INTO").data) upperQuery then
    match insertCapture query with
    | none => .error "Invalid INSERT INTO syntax"
    | some pr =>
      let columns := (splitOnCharL ',' pr.1).map trimL
      let values := (splitOnCharL ',' pr.2).map (fun v => stripQuotesL (trimL v))
      .ok (.insertOne (buildInsertObj columns values))
  else if startsWithSeq (("SELECT").data) upperQuery then
    match selectFieldsCapture query with
    | none => .error "Invalid SELECT syntax"
    | some fieldsPart =>
      let selectFields : Option (List String) :=
        if fieldsPart ≠ ("*").data && fieldsPart ≠ [] then
          some ((splitOnCharL ',' fieldsPart).map (fun f => String.mk (trimL f)))
        else none
      let whereF : Filter :=
        match clauseCapture (("WHERE").data) [("ORDER BY").data, ("LIMIT").data, ("OFFSET").data] query with
        | none => []
        | some cap => buildWhereFrom [] (splitAndL (trimL cap))
      let orderBy : Option (List OrderKey) :=
        match clauseCapture (("ORDER BY").data) [("LIMIT").data, ("OFFSET").data] query with
        | none => none
        | some cap => some (parseOrders (trimL cap))
      let limit := numCapture (("LIMIT").data) query
      let offset := numCapture (("OFFSET").data) query
      .ok (.select whereF (SelectOptions.mk orderBy limit offset selectFields))
  else if startsWithSeq (("UPDATE").data) upperQuery then
    match updateCapture query with
    | none => .error "Invalid UPDATE syntax"
    | some pr =>
      let newData := buildPairsFrom [] (splitOnCharL ',' (trimL pr.1))
      let whereF := buildWhereFrom [] (splitAndL (trimL pr.2))
      .ok (.update whereF newData)
  else if startsWithSeq (("DELETE").data) upperQuery then
    match deleteCapture query with
    | none => .error "Invalid DELETE syntax"
    | some wp =>
      .ok (.delete (buildWhereFrom [] (splitAndL (trimL wp))))
  else if upperQuery = ("GET TABLES").data then .ok .getTables
  else if upperQuery = ("SHOW TABLE DETAIL").data then .ok .showTableDetail
  else .error "Unsupported SQL operation"

/-- Condition whose value is a defined JS value (not undefined); bare
literals never reach _parseValue and count as defined. -/
def condValDefined : Cond → Bool
  | .cmp _ .undefined => false
  | _ => true

/-- Value of _parseValue on a string input, by the date hint. -/
def coerceStr (s : String) (d : Bool) : JSComparable :=
  if d then
    match jsDateParse s with
    | some ms => .num ((ms : ℚ))
    | none => .nan
  else coerceNonDate s

theorem parseValue_vstr (s : String) (d : Bool) :
    _parseValue (JSVal.vstr s) d = Except.ok (coerceStr s d) := by
  cases d <;> rfl

theorem parseValue_vnum (q : ℚ) (d : Bool) :
    _parseValue (JSVal.vnum q) d = Except.ok (JSComparable.num q) := by
  cases d <;> rfl

theorem parseValue_date_ok (v : JSVal) : ∃ c, _parseValue v true = Except.ok c := by
  cases v <;> exact ⟨_, rfl⟩

theorem entryMatches_ok (r : Row) (k : String) (c : Cond)
    (h : condValDefined c = true) : ∃ b, entryMatches r k c = Except.ok b := by
  cases c with
  | lit v => exact ⟨_, rfl⟩
  | cmp op v =>
    cases v with
    | undefined => simp [condValDefined] at h
    | vstr s => exact ⟨_, by simp [entryMatches, parseValue_vstr]; rfl⟩
    | vnum q => exact ⟨_, by simp [entryMatches, parseValue_vstr, parseValue_vnum]; rfl⟩

theorem rowMatches_ok (w : Filter) (r : Row)
    (h : ∀ p ∈ w, condValDefined p.2 = true) : ∃ b, rowMatches w r = Except.ok b := by
  induction w with
  | nil => exact ⟨true, rfl⟩
  | cons p rest ih =>
    obtain ⟨k, c⟩ := p
    obtain ⟨b, hb⟩ := entryMatches_ok r k c (h (k, c) (by simp))
    cases b with
    | false => exact ⟨false, by simp [rowMatches, hb]⟩
    | true =>
      obtain ⟨b2, hb2⟩ := ih (fun q hq => h q (by simp [hq]))
      exact ⟨b2, by simp [rowMatches, hb, hb2]⟩

theorem applyFilter_ok (rows : List Row) (w : Filter)
    (h : ∀ p ∈ w, condValDefined p.2 = true) :
    ∃ out, _applyFilter rows w = Except.ok out := by
  induction rows with
  | nil => exact ⟨[], rfl⟩
  | cons r rs ih =>
    obtain ⟨b, hb⟩ := rowMatches_ok w r h
    obtain ⟨rest, hrest⟩ := ih
    exact ⟨if b then r :: rest else rest, by simp [_applyFilter, hb, hrest]⟩

theorem cmpRows_ok (keys : List OrderKey) (a b : Row)
    (ha : ∀ k ∈ keys, dateHint k.column = true ∨ (rowGetCell a.cells k.column).isSome = true)
    (hb : ∀ k ∈ keys, dateHint k.column = true ∨ (rowGetCell b.cells k.column).isSome = true) :
    ∃ c, cmpRows keys a b = Except.ok c := by
  induction keys with
  | nil => exact ⟨0, rfl⟩
  | cons key rest ih =>
    have hA : ∃ va, _parseValue (jsOfCellOpt (rowGetCell a.cells key.column)) (dateHint key.column) = Except.ok va := by
      rcases ha key (by simp) with hd | hp
      · rw [hd]; exact parseValue_date_ok _
      · rcases Option.isSome_iff_exists.mp hp with ⟨s, hs⟩
        rw [hs]; exact ⟨_, parseValue_vstr s _⟩
    have hB : ∃ vb, _parseValue (jsOfCellOpt (rowGetCell b.cells key.column)) (dateHint key.column) = Except.ok vb := by
      rcases hb key (by simp) with hd | hp
      · rw [hd]; exact parseValue_date_ok _
      · rcases Option.isSome_iff_exists.mp hp with ⟨s, hs⟩
        rw [hs]; exact ⟨_, parseValue_vstr s _⟩
    obtain ⟨va, hva⟩ := hA
    obtain ⟨vb, hvb⟩ := hB
    by_cases h1 : jsLtB va vb
    · exact ⟨_, by simp [cmpRows, hva, hvb, h1]; rfl⟩
    · by_cases h2 : jsGtB va vb
      · exact ⟨_, by simp [cmpRows, hva, hvb, h1, h2]; rfl⟩
      · obtain ⟨c, hc⟩ := ih (fun k hk => ha k (List.mem_cons_of_mem _ hk))
          (fun k hk => hb k (List.mem_cons_of_mem _ hk))
        exact ⟨c, by simp [cmpRows, hva, hvb, h1, h2, hc]⟩

theorem insertE_ok_decomp {α : Type} (cmp : α → α → Except Unit Int) (x : α) :
    ∀ (s out : List α), insertE cmp x s = Except.ok out →
      ∃ s₁ s₂, s = s₁ ++ s₂ ∧ out = s₁ ++ x :: s₂ ∧
        ∀ y ∈ s₁, ∃ c, cmp x y = Except.ok c ∧ 0 < c := by
  intro s
  induction s with
  | nil =>
    intro out h
    simp [insertE] at h
    exact ⟨[], [], rfl, by simp [← h], by simp⟩
  | cons y ys ih =>
    intro out h
    cases hc : cmp x y with
    | error e => simp [insertE, hc] at h
    | ok c =>
      by_cases h0 : 0 < c
      · cases hr : insertE cmp x ys with
        | error e => simp [insertE, hc, h0, hr] at h
        | ok rest =>
          simp [insertE, hc, h0, hr] at h
          obtain ⟨s₁, s₂, hsplit, hrest, hgt⟩ := ih rest hr
          refine ⟨y :: s₁, s₂, by simp [hsplit], by simp [← h, hrest], ?_⟩
          intro z hz
          rcases List.mem_cons.mp hz with rfl | hz2
          · exact ⟨c, hc, h0⟩
          · exact hgt z hz2
      · simp [insertE, hc, h0] at h
        exact ⟨[], y :: ys, rfl, by simp [← h], by simp⟩

theorem insertE_ok {α : Type} (cmp : α → α → Except Unit Int) (x : α) :
    ∀ (s : List α), (∀ y ∈ s, ∃ c, cmp x y = Except.ok c) →
      ∃ out, insertE cmp x s = Except.ok out := by
  intro s
  induction s with
  | nil => exact fun _ => ⟨[x], rfl⟩
  | cons y ys ih =>
    intro h
    obtain ⟨c, hc⟩ := h y (by simp)
    by_cases h0 : 0 < c
    · obtain ⟨out, hout⟩ := ih (fun z hz => h z (by simp [hz]))
      exact ⟨y :: out, by simp [insertE, hc, h0, hout]⟩
    · exact ⟨x :: y :: ys, by simp [insertE, hc, h0]⟩

theorem sortE_ok_perm {α : Type} (cmp : α → α → Except Unit Int) :
    ∀ (l out : List α), sortE cmp l = Except.ok out → List.Perm out l := by
  intro l
  induction l with
  | nil =>
    intro out h
    simp [sortE] at h
    simp [← h]
  | cons x xs ih =>
    intro out h
    cases hs : sortE cmp xs with
    | error e => simp [sortE, hs] at h
    | ok s =>
      have hins : insertE cmp x s = Except.ok out := by simpa [sortE, hs] using h
      obtain ⟨s₁, s₂, hsplit, hout, _⟩ := insertE_ok_decomp cmp x s out hins
      subst hout
      exact List.Perm.trans List.perm_middle (List.Perm.cons x (hsplit ▸ ih s hs))

theorem sortE_ok {α : Type} (cmp : α → α → Except Unit Int) :
    ∀ (l : List α), (∀ a ∈ l, ∀ b ∈ l, ∃ c, cmp a b = Except.ok c) →
      ∃ out, sortE cmp l = Except.ok out := by
  intro l
  induction l with
  | nil => exact fun _ => ⟨[], rfl⟩
  | cons x xs ih =>
    intro h
    obtain ⟨s, hs⟩ := ih (fun a ha b hb => h a (by simp [ha]) b (by simp [hb]))
    have hmem : ∀ y ∈ s, ∃ c, cmp x y = Except.ok c := by
      intro y hy
      have hyx : y ∈ xs := ((sortE_ok_perm cmp xs s hs).mem_iff).mp hy
      exact h x (by simp) y (by simp [hyx])
    obtain ⟨out, hout⟩ := insertE_ok cmp x s hmem
    exact ⟨out, by simp [sortE, hs, hout]⟩

theorem sortE_stable {α : Type} (cmp : α → α → Except Unit Int) (a b : α) :
    ∀ (l out : List α), sortE cmp l = Except.ok out →
      List.Sublist [a, b] l → cmp a b = Except.ok 0 → List.Sublist [a, b] out := by
  intro l
  induction l with
  | nil =>
    intro out h hsub _
    rw [List.sublist_nil] at hsub
    cases hsub
  | cons x xs ih =>
    intro out h hsub heq
    cases hs : sortE cmp xs with
    | error e => simp [sortE, hs] at h
    | ok s =>
      have hins : insertE cmp x s = Except.ok out := by simpa [sortE, hs] using h
      obtain ⟨s₁, s₂, hsplit, hout, hgt⟩ := insertE_ok_decomp cmp x s out hins
      subst hout
      cases hsub with
      | cons _ h2 =>
        have hstep : List.Sublist (s₁ ++ s₂) (s₁ ++ x :: s₂) :=
          List.Sublist.append_left (List.Sublist.cons x (List.Sublist.refl s₂)) s₁
        exact List.Sublist.trans (hsplit ▸ ih s hs h2 heq) hstep
      | cons₂ _ h2 =>
        have hbxs : b ∈ xs := List.singleton_sublist.mp h2
        have hbs : b ∈ s := ((sortE_ok_perm cmp xs s hs).mem_iff).mpr hbxs
        rw [hsplit] at hbs
        rcases List.mem_append.mp hbs with hb1 | hb2
        · obtain ⟨c, hcb, hpos⟩ := hgt b hb1
          rw [heq] at hcb
          injection hcb with hc0
          omega
        · obtain ⟨u, v, huv⟩ := List.append_of_mem hb2
          subst huv
          have h1 : List.Sublist [a, b] (a :: (u ++ b :: v)) :=
            List.Sublist.cons₂ a (List.singleton_sublist.mpr (by simp))
          exact List.Sublist.trans h1 (List.sublist_append_right s₁ _)

theorem insertE_cmpzero (x : Row) (l : List Row) :
    insertE (cmpRows []) x l = Except.ok (x :: l) := by
  cases l with
  | nil => rfl
  | cons y ys => simp [insertE, cmpRows]

theorem applySorting_nil (l : List Row) : _applySorting l [] = Except.ok l := by
  induction l with
  | nil => rfl
  | cons x xs ih =>
    have hs : sortE (cmpRows []) xs = Except.ok xs := ih
    simp [_applySorting, sortE, hs, insertE_cmpzero]

/-- C1 counterexample: sorting two rows by a key naming a column absent from
both rows (and not date-hinted) raises: _parseValue receives undefined on
the non-date path and undefined.toString() throws a TypeError, so the
evaluator/sort engine is not total as the claim states. -/
theorem c1_sort_absent_column_raises :
    _applySorting [Row.mk [("a", "1")] 2, Row.mk [("a", "2")] 3]
      [OrderKey.mk "missing" "asc"] = Except.error () := by rfl

/-- C1 (amended): the predicate evaluator is total for every row list and
every Filter whose condition values are defined (strings or numbers,
including unknown operators and unparseable values), and the sort engine is
total provided every orderBy column is date-hinted or present in every row;
sorting by an absent, non-date-hinted column raises instead. -/
theorem c1_evaluator_sort_totality :
    (∀ (rows : List Row) (w : Filter),
        (∀ p ∈ w, condValDefined p.2 = true) →
        ∃ out, _applyFilter rows w = Except.ok out)
    ∧ (∀ (rows : List Row) (keys : List OrderKey),
        (∀ k ∈ keys, dateHint k.column = true ∨ ∀ r ∈ rows, (rowGetCell r.cells k.column).isSome = true) →
        ∃ out, _applySorting rows keys = Except.ok out) := by
  constructor
  · exact fun rows w h => applyFilter_ok rows w h
  · intro rows keys h
    refine sortE_ok (cmpRows keys) rows ?_
    intro a ha b hb
    refine cmpRows_ok keys a b ?_ ?_
    · intro k hk
      rcases h k hk with hd | hp
      · exact Or.inl hd
      · exact Or.inr (hp a ha)
    · intro k hk
      rcases h k hk with hd | hp
      · exact Or.inl hd
      · exact Or.inr (hp b hb)

/-- C2 counterexample: a recognized SELECT whose WHERE condition text is
malformed (no '=' at all) translates successfully to a command with an
empty Filter, instead of aborting with an error as the claim states. -/
theorem c2_malformed_where_returns_empty_filter :
    _sqlToNosqlConverter "SELECT * FROM t WHERE garbage"
      = Except.ok (Command.select [] (SelectOptions.mk none none none none)) := by rfl

/-- C2 (amended): a WHERE condition that does not split into exactly two
parts on '=' is silently skipped, leaving the Filter unchanged; a
recognized statement whose WHERE text is entirely malformed translates
without error to a command with an empty Filter (translation errors only
when the statement's top-level shape regex fails). -/
theorem c2_where_malformed_silently_skipped :
    (∀ (w : Filter) (conds : List (List Char)),
        (∀ c ∈ conds, (splitOnCharL '=' c).length ≠ 2) → buildWhereFrom w conds = w)
    ∧ _sqlToNosqlConverter "UPDATE t SET name = \x27Bob\x27 WHERE garbage"
        = Except.ok (Command.update [] [("name", "Bob")]) := by
  constructor
  · intro w conds h
    induction conds generalizing w with
    | nil => rfl
    | cons c rest ih =>
      have hc := h c (by simp)
      have hrest : ∀ x ∈ rest, (splitOnCharL '=' x).length ≠ 2 := fun x hx => h x (by simp [hx])
      cases hsp : splitOnCharL '=' c with
      | nil => simp only [buildWhereFrom, hsp]; exact ih w hrest
      | cons k t1 =>
        cases t1 with
        | nil => simp only [buildWhereFrom, hsp]; exact ih w hrest
        | cons v t2 =>
          cases t2 with
          | nil => exact absurd (by simp [hsp]) hc
          | cons z t3 => simp only [buildWhereFrom, hsp]; exact ih w hrest
  · rfl

/-- C3 counterexample: in "SELECT * FROM t LIMIT 5 WHERE a = '1'" the WHERE
clause appears after LIMIT, yet it is recognized (the translated where
Filter is non-empty), contradicting the claim that an out-of-order clause
is treated as absent. -/
theorem c3_where_after_limit_recognized :
    _sqlToNosqlConverter "SELECT * FROM t LIMIT 5 WHERE a = \x271\x27"
      = Except.ok (Command.select [("a", Cond.lit (JSVal.vstr "1"))]
          (SelectOptions.mk none (some 5) none none)) := by rfl

/-- C3 (amended): each clause regex searches the whole statement, so a
clause written out of the canonical order is still recognized, its text
bounded by the next terminator keyword or end of string, and translation
does not error; a WHERE after OFFSET is picked up, and a WHERE after
ORDER BY is picked up while the ORDER BY capture swallows the WHERE text
into its direction word. -/
theorem c3_out_of_order_clauses_recognized :
    _sqlToNosqlConverter "SELECT * FROM t OFFSET 2 WHERE b = \x272\x27"
      = Except.ok (Command.select [("b", Cond.lit (JSVal.vstr "2"))]
          (SelectOptions.mk none none (some 2) none))
    ∧ _sqlToNosqlConverter "SELECT * FROM t ORDER BY a WHERE b = \x272\x27"
      = Except.ok (Command.select [("b", Cond.lit (JSVal.vstr "2"))]
          (SelectOptions.mk (some [OrderKey.mk "a" "where"]) none none none)) :=
  ⟨rfl, rfl⟩

/-- C4 counterexample: the column name created_at does not contain the
substring "date", so its date hint is false and "2024-03-01" under it is
coerced to a lower-cased string (lexicographic comparison), not to a date
epoch, contradicting the claim's first conjunct. -/
theorem c4_created_at_not_hinted :
    dateHint "created_at" = false
    ∧ _parseValue (JSVal.vstr "2024-03-01") (dateHint "created_at")
        = Except.ok (JSComparable.str (("2024-03-01").data)) := ⟨rfl, rfl⟩

/-- C4 (amended): the date hint is true exactly when the column name
contains "date" case-insensitively; under a genuinely date-hinted column
(start_date) the two cells coerce to epoch milliseconds that order
chronologically; created_at is not date-hinted, so under it the cells
coerce to strings compared lexicographically, which still orders
"2024-03-01" before "2024-03-15". -/
theorem c4_date_hint_and_comparison :
    (∀ col : String, dateHint col = containsSeq (toLowerL col.data) (("date").data))
    ∧ dateHint "start_date" = true
    ∧ (∃ t1 t2 : ℚ,
        _parseValue (JSVal.vstr "2024-03-01") (dateHint "start_date") = Except.ok (JSComparable.num t1)
        ∧ _parseValue (JSVal.vstr "2024-03-15") (dateHint "start_date") = Except.ok (JSComparable.num t2)
        ∧ t1 < t2)
    ∧ dateHint "created_at" = false
    ∧ _parseValue (JSVal.vstr "2024-03-15") (dateHint "created_at")
        = Except.ok (JSComparable.str (("2024-03-15").data))
    ∧ jsLtB (JSComparable.str (("2024-03-01").data)) (JSComparable.str (("2024-03-15").data)) = true := by
  refine ⟨fun col => rfl, rfl, ⟨1709251200000, 1710460800000, rfl, rfl, by norm_num⟩, rfl, rfl, rfl⟩

/-- C5: the empty Filter matches every row, and a row matches a Filter
exactly when every (column, condition) entry individually matches
(conjunctive AND, no disjunction). -/
theorem c5_empty_filter_and_conjunction :
    (∀ r : Row, rowMatches [] r = Except.ok true)
    ∧ (∀ (w : Filter) (r : Row),
        rowMatches w r = Except.ok true ↔ ∀ p ∈ w, entryMatches r p.1 p.2 = Except.ok true) := by
  constructor
  · intro r; rfl
  · intro w r
    induction w with
    | nil => simp [rowMatches]
    | cons p rest ih =>
      obtain ⟨k, c⟩ := p
      cases he : entryMatches r k c with
      | error e => simp [rowMatches, he]
      | ok b =>
        cases b with
        | true => simp [rowMatches, he, ih]
        | false => simp [rowMatches, he]

/-- C6: the sort engine is stable (two rows whose comparator walk returns 0
— equal coerced values on every orderBy key — keep their relative input
order in any successful sort), and an empty orderBy returns the input
unchanged. -/
theorem c6_sorting_stable_and_empty_noop :
    (∀ (rows out : List Row) (keys : List OrderKey) (a b : Row),
        _applySorting rows keys = Except.ok out →
        List.Sublist [a, b] rows → cmpRows keys a b = Except.ok 0 →
        List.Sublist [a, b] out)
    ∧ (∀ rows : List Row, _applySorting rows [] = Except.ok rows) := by
  constructor
  · intro rows out keys a b h hsub heq
    exact sortE_stable (cmpRows keys) a b rows out h hsub heq
  · exact applySorting_nil

/-- C7: a contains condition bypasses coercion — its result is exactly the
case-insensitive substring test of the condition value within the raw cell
value — and matches({name:"Alice"}, {name:{op:'contains', value:'LI'}}) is
true. -/
theorem c7_contains_case_insensitive_substring :
    (∀ (r : Row) (k v : String),
        entryMatches r k (Cond.cmp "contains" (JSVal.vstr v))
          = Except.ok (containsSeq (toLowerL (jsOrEmpty (rowGetCell r.cells k)).data) (toLowerL v.data)))
    ∧ rowMatches [("name", Cond.cmp "contains" (JSVal.vstr "LI"))] (Row.mk [("name", "Alice")] 2)
        = Except.ok true := by
  constructor
  · intro r k v
    simp [entryMatches, parseValue_vstr, jsStringOf]
  · rfl

/-- C8: translating "SELECT name FROM t ORDER BY age DESC LIMIT 5 OFFSET 2"
yields a select command whose options are exactly selectFields ['name'],
orderBy [{age, desc}], limit 5, offset 2, with an empty where Filter. -/
theorem c8_select_translation_full_options :
    _sqlToNosqlConverter "SELECT name FROM t ORDER BY age DESC LIMIT 5 OFFSET 2"
      = Except.ok (Command.select []
          (SelectOptions.mk (some [OrderKey.mk "age" "desc"]) (some 5) (some 2) (some ["name"]))) := by
  rfl

/-- C9: limit 0 and offset 0 behave as absent (JS 0 is falsy, so the slice
is skipped and every matching row is kept), and when both are positive the
offset slice is applied before the limit slice. -/
theorem c9_zero_limit_offset_falsy :
    (∀ (rows : List Row) (w : Filter) (ob : Option (List OrderKey)) (off : Option Nat) (sf : Option (List String)),
        selectPipeline rows w (SelectOptions.mk ob (some 0) off sf)
          = selectPipeline rows w (SelectOptions.mk ob none off sf))
    ∧ (∀ (rows : List Row) (w : Filter) (ob : Option (List OrderKey)) (lim : Option Nat) (sf : Option (List String)),
        selectPipeline rows w (SelectOptions.mk ob lim (some 0) sf)
          = selectPipeline rows w (SelectOptions.mk ob lim none sf))
    ∧ (∀ (rows : List Row) (w : Filter) (n k : Nat), n ≠ 0 → k ≠ 0 →
        selectPipeline rows w (SelectOptions.mk none (some n) (some k) none)
          = (match _applyFilter rows w with
             | .error e => .error e
             | .ok d => .ok (SelectOut.raw ((d.drop k).take n)))) := by
  refine ⟨?_, ?_, ?_⟩
  · intro rows w ob off sf
    simp only [selectPipeline]
    cases _applyFilter rows w with
    | error e => rfl
    | ok d =>
      cases ob with
      | none => cases off <;> simp
      | some obl =>
        cases _applySorting d obl with
        | error e => rfl
        | ok d1 => cases off <;> simp
  · intro rows w ob lim sf
    simp only [selectPipeline]
    cases _applyFilter rows w with
    | error e => rfl
    | ok d =>
      cases ob with
      | none => cases lim <;> simp
      | some obl =>
        cases _applySorting d obl with
        | error e => rfl
        | ok d1 => cases lim <;> simp
  · intro rows w n k hn hk
    simp only [selectPipeline]
    cases _applyFilter rows w with
    | error e => rfl
    | ok d => simp [hn, hk]

/-- C10: filtering is an order-preserving selection — a successful
_applyFilter returns exactly the subsequence of input rows whose predicate
evaluates to true, each row unmodified and in input order. -/
theorem c10_filter_ordered_subsequence :
    ∀ (rows : List Row) (w : Filter) (out : List Row),
      _applyFilter rows w = Except.ok out →
      out = List.filter (fun r => isOkTrue (rowMatches w r)) rows := by
  intro rows w
  induction rows with
  | nil =>
    intro out h
    simp [_applyFilter] at h
    subst h
    rfl
  | cons r rs ih =>
    intro out h
    cases hm : rowMatches w r with
    | error e => simp [_applyFilter, hm] at h
    | ok b =>
      cases b with
      | true =>
        cases hrest : _applyFilter rs w with
        | error e => simp [_applyFilter, hm, hrest] at h
        | ok rest =>
          simp [_applyFilter, hm, hrest] at h
          simp [← h, List.filter_cons, isOkTrue, hm, ih rest hrest]
      | false =>
        cases hrest : _applyFilter rs w with
        | error e => simp [_applyFilter, hm, hrest] at h
        | ok rest =>
          simp [_applyFilter, hm, hrest] at h
          simp [← h, List.filter_cons, isOkTrue, hm, ih rest hrest]

/-- C10 witness: the filter of two concrete rows by a = '1' keeps exactly
the first row, as the theorem instantiates at this input. -/
theorem c10_filter_witness :
    [Row.mk [("a", "1")] 2]
      = List.filter (fun r => isOkTrue (rowMatches [("a", Cond.lit (JSVal.vstr "1"))] r))
          [Row.mk [("a", "1")] 2, Row.mk [("a", "2")] 3] :=
  c10_filter_ordered_subsequence [Row.mk [("a", "1")] 2, Row.mk [("a", "2")] 3]
    [("a", Cond.lit (JSVal.vstr "1"))] [Row.mk [("a", "1")] 2] (by rfl)

end SheetDB
